import Mathlib

/-!
Verification of the MightyVariableFan acoustic-modem core (encoder
`pwm_postprocessor.py`, detector `beepdetect.py` in its two copies
`src/beepdetect.py` and `src/pi_files/beepdetect.py`).

The Python code is shallowly embedded: floating-point arithmetic is modelled
over `ℚ` (every comparison and rounding performed by the original code on the
inputs considered here is tie-free and far from the float error, so the
rational model agrees with the float one), Python's banker's rounding is
`pyRoundQ`, Python lists are `List`, `None`-able ints are `Option ℕ`.
-/

namespace MightyVariableFan

/-- Python's built-in `round` on a rational: round half to even. -/
def pyRoundQ (q : ℚ) : ℤ :=
  if q - ⌊q⌋ < 1 / 2 then ⌊q⌋
  else if 1 / 2 < q - ⌊q⌋ then ⌊q⌋ + 1
  else if ⌊q⌋ % 2 = 0 then ⌊q⌋ else ⌊q⌋ + 1

/-- Python's `round(q, 2)`: round to two decimal places, half to even. -/
def pyRound2 (q : ℚ) : ℚ := (pyRoundQ (q * 100) : ℚ) / 100

/-- `SEQUENCE_LENGTH` from both `beepdetect.py` and `pwm_postprocessor.py`. -/
def SEQUENCE_LENGTH : ℕ := 3

/-- `seq_to_value` from `beepdetect.py`: converts a sequence of base-4 digits
(most significant first) to an integer, summing `4 ** i * sequence[-(i+1)]`. -/
def seq_to_value (sequence : List ℕ) : ℕ :=
  (List.range sequence.length).foldl
    (fun value i => value + 4 ^ i * sequence.getD (sequence.length - (i + 1)) 0) 0

/-- The `while quantized:` loop of `GCodeStreamer.speed_to_sequence`
(`pwm_postprocessor.py`): repeatedly take `quantized % 4` and prepend it.
The first argument is fuel; `n` itself is always enough fuel since the
argument quarters at every step. -/
def toBase4Aux : ℕ → ℕ → List ℕ
  | 0, _ => []
  | _ + 1, 0 => []
  | fuel + 1, n + 1 => toBase4Aux fuel ((n + 1) / 4) ++ [(n + 1) % 4]

/-- The digit-expansion part of `GCodeStreamer.speed_to_sequence`
(`pwm_postprocessor.py`, lines 545-552): base-4 digits of `quantized`,
left-padded with zeros to `SEQUENCE_LENGTH`. -/
def value_to_sequence (quantized : ℕ) : List ℕ :=
  let digits := toBase4Aux quantized quantized
  List.replicate (SEQUENCE_LENGTH - digits.length) 0 ++ digits

/-- `GCodeStreamer.speed_to_sequence` from `pwm_postprocessor.py` (lines
540-552): `quantized = int(round(speed / 255.0 * (4**SEQUENCE_LENGTH - 1)))`
followed by base-4 expansion and zero-padding. (For the nonnegative speeds
this program produces, `Int.toNat` is the identity on the rounded value.) -/
def speed_to_sequence (speed : ℚ) : List ℕ :=
  value_to_sequence (pyRoundQ (speed / 255 * (4 ^ SEQUENCE_LENGTH - 1))).toNat

/-- `seq_scale_factor` set in `DetectionState.reset` (`beepdetect.py`):
`100.0 / (4**SEQUENCE_LENGTH - 1)`.  It is a constant of the program. -/
def seq_scale_factor : ℚ := 100 / (4 ^ SEQUENCE_LENGTH - 1)

/-- The mutable state of `DetectionState` (`beepdetect.py`): the frame counter
since the last reset, the list of detected symbols, and the two `None`-able
frame timestamps. -/
structure DetectionState where
  time_index : ℕ
  detected : List ℕ
  current_sig_start : Option ℕ
  last_sig_end : Option ℕ
deriving DecidableEq, Repr

/-- `DetectionState.reset` (`beepdetect.py`, lines 142-151): the initial state,
also installed on every reset. -/
def DetectionState.resetState : DetectionState :=
  { time_index := 0, detected := [], current_sig_start := none, last_sig_end := none }

/-- Python truthiness of the `current_sig_start` field, as tested by
`if self.current_sig_start and ...`: `None` and `0` are both falsy. -/
def cssTruthy : Option ℕ → Bool
  | none => false
  | some c => c != 0

/-- The state mutation shared by the tail of `DetectionState.check_signal`
(`beepdetect.py`, lines 195-198): append the signal, set `current_sig_start`
to `time_index` only if it is `None`, and set `last_sig_end` to `time_index`. -/
def appendSig (st : DetectionState) (signal_id : ℕ) : DetectionState :=
  { st with
    detected := st.detected ++ [signal_id],
    current_sig_start :=
      if st.current_sig_start = none then some st.time_index else st.current_sig_start,
    last_sig_end := some st.time_index }

/-- `DetectionState.check_signal` (`src/pi_files/beepdetect.py`, lines 158-199;
identical in `src/beepdetect.py`, lines 145-186).  Natural subtraction agrees
with Python's signed subtraction here: whenever the Python difference would be
negative, both sides of each comparison pick the same branch.  The `getD 0` on
`last_sig_end` is only exercised on states where Python would raise, which the
theorems below exclude by hypothesis. -/
def check_signal (st : DetectionState) (signal_id : ℕ) : DetectionState × Bool :=
  if st.time_index < 7 then (DetectionState.resetState, false)
  else if st.detected = [] then (appendSig st signal_id, true)
  else if cssTruthy st.current_sig_start = true ∧ st.detected.getLast? = some signal_id then
    if 4 < 1 + st.time_index - st.current_sig_start.getD 0 then
      (DetectionState.resetState, false)
    else
      ({ st with last_sig_end := some st.time_index }, true)
  else if st.time_index - st.last_sig_end.getD 0 < 3 ∨
      9 < st.time_index - st.last_sig_end.getD 0 then
    (DetectionState.resetState, false)
  else if SEQUENCE_LENGTH - 1 < st.detected.length then
    (DetectionState.resetState, false)
  else (appendSig st signal_id, true)

/-- Result of `DetectionState.check_silence`: a duty-cycle percentage,
Python `False` (invalid partial sequence), or Python `None`. -/
inductive SilenceResult where
  | duty (d : ℚ)
  | invalid
  | nothing
deriving DecidableEq

/-- `DetectionState.check_silence` (`src/pi_files/beepdetect.py`, lines
201-222; identical in `src/beepdetect.py`, lines 188-209). -/
def check_silence (st : DetectionState) : DetectionState × SilenceResult :=
  if st.detected = [] then
    ({ st with current_sig_start := none }, SilenceResult.nothing)
  else if st.detected.length = SEQUENCE_LENGTH ∧
      8 ≤ st.time_index - st.last_sig_end.getD 0 then
    (DetectionState.resetState,
     SilenceResult.duty (pyRound2 ((seq_to_value st.detected : ℚ) * seq_scale_factor)))
  else if st.detected.length < SEQUENCE_LENGTH ∧
      8 < st.time_index - st.last_sig_end.getD 0 then
    (DetectionState.resetState, SilenceResult.invalid)
  else ({ st with current_sig_start := none }, SilenceResult.nothing)

/-- `HARMONIC_FACTOR` from `src/pi_files/beepdetect.py`, line 123. -/
def HARMONIC_FACTOR : ℚ := 13 / 10

/-- The one-signal branch of the main loop of `start_detecting` in
`src/pi_files/beepdetect.py` (lines 430-438): compute the ratio of the
sub-harmonic bin sum to the signal bin sum, reset on `ratio > HARMONIC_FACTOR`
(returning `none`, i.e. the symbol never reaches the state machine), otherwise
run `check_signal` and return its Boolean. -/
def process_one_signal (st : DetectionState) (signal_id : ℕ) (sig_total sub_total : ℚ) :
    DetectionState × Option Bool :=
  if sub_total / sig_total > HARMONIC_FACTOR then (DetectionState.resetState, none)
  else ((check_signal st signal_id).1, some (check_signal st signal_id).2)

/-- The one-signal branch of the main loop of `start_detecting` in the older
copy `src/beepdetect.py` (lines 381-387): there the rejection test is
`total_bins[len(SIG_BINS) + signals[0]] > .7 * total_bins[signals[0]]`,
a fixed factor of 0.7 instead of `HARMONIC_FACTOR`. -/
def legacy_one_signal (st : DetectionState) (signal_id : ℕ) (sig_total sub_total : ℚ) :
    DetectionState × Option Bool :=
  if sub_total > 7 / 10 * sig_total then (DetectionState.resetState, none)
  else ((check_signal st signal_id).1, some (check_signal st signal_id).2)

/-- `chunk_duration` from `start_detecting` (`beepdetect.py`):
`float(NUM_SAMPLES) / SAMPLING_RATE` with `NUM_SAMPLES = 1024`,
`SAMPLING_RATE = 44100`. -/
def chunk_duration : ℚ := 1024 / 44100

/-- `request_countdown` from `start_detecting` (`src/pi_files/beepdetect.py`,
lines 279-280; identical in `src/beepdetect.py`, lines 241-242):
`int(round(float(options.timeout + 1) / chunk_duration))`. -/
def request_countdown (timeout : ℕ) : ℤ :=
  pyRoundQ (((timeout : ℚ) + 1) / chunk_duration)

/-- `ramp_up_scale` from `pwm_postprocessor.py` (lines 648-650):
`min(1.0, layer_z * (1.0 - config.scale0) / config.zmax + config.scale0)`. -/
def ramp_up_scale (layer_z scale0 zmax : ℚ) : ℚ :=
  min 1 (layer_z * (1 - scale0) / zmax + scale0)

/-- A main-buffer entry as read by the backward walk of
`inject_beep_sequence`: of the 4-tuple `(line, z, fan_speed, time_estimate)`
only the line text (`data[0]`) and the time estimate (`data[3]`) are read. -/
structure BufLine where
  line : String
  time_estimate : ℚ
deriving DecidableEq

/-- The end-of-sequence marker line tested by `inject_beep_sequence`
(`pwm_postprocessor.py`, line 624). -/
def seq_end_line : String := "M300 S0 P200; end sequence"

/-- The backward walk of `GCodeStreamer.inject_beep_sequence`
(`pwm_postprocessor.py`, lines 617-633), iterating over the reversed buffer:
stop with `previous_sequence = true` on the end-of-sequence marker, otherwise
decrement the position, shift `t_elapsed` into `t_next`, add the line's time
estimate, and stop once `t_elapsed >= lead_time`. -/
def backtrackAux (lead_time : ℚ) :
    List BufLine → ℕ → ℚ → ℚ → ℕ × ℚ × ℚ × Bool
  | [], position, t_elapsed, t_next => (position, t_elapsed, t_next, false)
  | d :: rest, position, t_elapsed, t_next =>
    if d.line = seq_end_line then (position, t_elapsed, t_next, true)
    else if t_elapsed + d.time_estimate ≥ lead_time then
      (position - 1, t_elapsed + d.time_estimate, t_elapsed, false)
    else backtrackAux lead_time rest (position - 1) (t_elapsed + d.time_estimate) t_elapsed

/-- The backward walk of `inject_beep_sequence` started on the whole main
buffer with `position = len(buffer)`, `t_elapsed = t_next = 0`. -/
def backtrack (buffer : List BufLine) (lead_time : ℚ) : ℕ × ℚ × ℚ × Bool :=
  backtrackAux lead_time buffer.reverse buffer.length 0 0

/-- `GCodeStreamer.optimize_lead_time` (`pwm_postprocessor.py`, lines
567-604).  The returned triple is (buffer index to insert at, reported lead
time, whether the move at `position` was split).  `split_ok` abstracts the
success of `self.split_move` (which fails when no previous X/Y coordinates
can be found before `position`). -/
def optimize_lead_time (lead_time : ℚ) (position : ℕ) (t_elapsed t_next : ℚ)
    (allow_split split_ok : Bool) : ℕ × ℚ × Bool :=
  if 5 / 4 * lead_time < t_elapsed then
    if 3 / 4 * lead_time ≤ t_next then (position + 1, t_next, false)
    else if allow_split && split_ok then (position + 1, t_next + lead_time, true)
    else if t_elapsed ≤ 2 * lead_time then (position, t_elapsed, false)
    else (position + 1, t_next, false)
  else (position, t_elapsed, false)

/-- The two fragment durations produced by `GCodeStreamer.split_move`
(`pwm_postprocessor.py`, lines 506-510): given the duration `d` of the move
being split and the requested second-part duration `time2`, the parts last
`fraction * d` with `fraction = 1 - time2 / d`, and `time2`. -/
def split_move_times (d time2 : ℚ) : ℚ × ℚ := ((1 - time2 / d) * d, time2)

/-- Modelled from the spec: the insertion-point choice of claim C3 /
spec §4.2 "Back-dating with lead time", read literally in the order the spec
states it (first `t_next ≥ 0.75·T`, then `t_elapsed ≤ 2·T`, then splitting,
then the "too late" fallback).  Return type as for `optimize_lead_time`; for
the branches whose outcome the spec leaves unspecified (the lead reported for
a split, the fallback position) the code's values are used. -/
def claimed_optimize (lead_time : ℚ) (position : ℕ) (t_elapsed t_next : ℚ)
    (allow_split split_ok : Bool) : ℕ × ℚ × Bool :=
  if 3 / 4 * lead_time ≤ t_next then (position + 1, t_next, false)
  else if t_elapsed ≤ 2 * lead_time then (position, t_elapsed, false)
  else if allow_split && split_ok then (position + 1, lead_time, true)
  else (position + 1, t_next, false)

/-- Python's `\s` character class (the line has already been stripped of its
trailing newline, but `\s` itself matches all of these). -/
def pySpace (c : Char) : Bool :=
  c == ' ' || c == '\t' || c == '\n' || c == '\r' || c == '\x0b' || c == '\x0c'

/-- The `(\s|;|$)` tail common to the G-code regexes of `pwm_postprocessor.py`. -/
def tailOk : List Char → Bool
  | [] => true
  | c :: _ => pySpace c || c == ';'

/-- `re.match(r"[^;]*G1(\s|;|$)", line)` viewed as a Boolean
(`_read_next_line`, `pwm_postprocessor.py`, line 245): some position before
any `;` starts `G1` followed by whitespace, `;`, or end of line. -/
def matchG1 : List Char → Bool
  | [] => false
  | 'G' :: '1' :: rest => tailOk rest || matchG1 ('1' :: rest)
  | ';' :: _ => false
  | _ :: rest => matchG1 rest

/-- `re.match(r"(M126|M127)(\s|;|$)", line)` viewed as a Boolean
(`_read_next_line`, `pwm_postprocessor.py`, line 247). -/
def matchM126_7 : List Char → Bool
  | 'M' :: '1' :: '2' :: '6' :: rest => tailOk rest
  | 'M' :: '1' :: '2' :: '7' :: rest => tailOk rest
  | _ => false

/-- `END_MARKER` from `pwm_postprocessor.py`, line 61. -/
def END_MARKER : String :=
  ";- - - Custom finish printing G-code for FlashForge Creator Pro - - -"

/-- `line.startswith(marker)` on character lists (first argument is the
sought marker). -/
def startsWithChars : List Char → List Char → Bool
  | [], _ => true
  | _ :: _, [] => false
  | p :: ps, c :: cs => p == c && startsWithChars ps cs

/-- Numeric value of a digit run, as `float()` would parse its integer part. -/
def digitsVal (ds : List Char) : ℕ :=
  ds.foldl (fun a c => 10 * a + (c.toNat - '0'.toNat)) 0

/-- The number regex `\d*\.?\d+` of the fan-command pattern together with
`float()` of the matched text.  With greedy matching and backtracking this
matches `digits [ '.' digits ]` (at least one digit overall, a dot only when
followed by a digit), longest match first. -/
def parseNumber (cs : List Char) : Option ℚ :=
  let d1 := cs.takeWhile Char.isDigit
  let r1 := cs.dropWhile Char.isDigit
  match r1 with
  | '.' :: r2 =>
    let d2 := r2.takeWhile Char.isDigit
    if d2 ≠ [] then some ((digitsVal d1 : ℚ) + (digitsVal d2 : ℚ) / 10 ^ d2.length)
    else if d1 ≠ [] then some (digitsVal d1) else none
  | _ => if d1 ≠ [] then some (digitsVal d1) else none

/-- Which fan command matched: group 1 of the fan regex. -/
inductive FanCmd where
  | m106
  | m107
deriving DecidableEq

/-- Group 2 of `re.match(r"(M106|M107)(\s+S(\d*\.?\d+)|\s|;|$)", line)`:
`none` when the whole regex fails to match, `some none` when it matches
without an S group, `some (some v)` when group 3 matched with value `v`.
The alternation is tried in the regex's order: `\s+S<number>` first (the
greedy `\s+` cannot backtrack into a position where `S` follows, since `S`
is not whitespace), then a single `\s`, then `;`, then end of line. -/
def matchFanTail (rest : List Char) : Option (Option ℚ) :=
  let sp := rest.takeWhile pySpace
  let af := rest.dropWhile pySpace
  if sp ≠ [] then
    match af with
    | 'S' :: r2 =>
      match parseNumber r2 with
      | some v => some (some v)
      | none => some none
    | _ => some none
  else
    match rest with
    | ';' :: _ => some none
    | [] => some none
    | _ => none

/-- `re.match(r"(M106|M107)(\s+S(\d*\.?\d+)|\s|;|$)", line)` from
`_read_next_line` (`pwm_postprocessor.py`, line 254). -/
def matchFan (cs : List Char) : Option (FanCmd × Option ℚ) :=
  match cs with
  | 'M' :: '1' :: '0' :: '6' :: rest => (matchFanTail rest).map (fun s => (FanCmd.m106, s))
  | 'M' :: '1' :: '0' :: '7' :: rest => (matchFanTail rest).map (fun s => (FanCmd.m107, s))
  | _ => none

/-- The `duty_cycle` computation of `GCodeStreamer._read_next_line`
(`pwm_postprocessor.py`, lines 242-260): start from the current fan duty
(`self.xyzfd[4]`), leave it unchanged for moves, `M126`/`M127`, the end
marker, and unrecognised lines; for a matching fan command set it to 0.0,
then to `float(S)` only when the command is `M106` and has an S group. -/
def line_duty (prev_duty : ℚ) (line : List Char) : ℚ :=
  if matchG1 line then prev_duty
  else if matchM126_7 line then prev_duty
  else if startsWithChars END_MARKER.toList line then prev_duty
  else
    match matchFan line with
    | some (FanCmd.m106, some v) => v
    | some (FanCmd.m106, none) => 0
    | some (FanCmd.m107, _) => 0
    | none => prev_duty

/-- A frame as seen by the detector state machine after the FFT stage of
`start_detecting`: either a frame treated as silence (zero or several signal
bins present), exactly one signal that passed the sub-harmonic check, or
exactly one signal rejected as a harmonic (which resets the state). -/
inductive FrameObs where
  | quiet
  | signal (s : ℕ)
  | harmonicNoise
deriving DecidableEq

/-- `DetectionState` instrumented with a ghost absolute frame counter:
`frame` counts every processed audio chunk and is never reset, and each
detected symbol is tagged with the frame at which it was appended.  Erasing
`frame` and the tags gives back `DetectionState`; the tags only record when
each symbol entered `detected`. -/
structure TDetState where
  frame : ℕ
  time_index : ℕ
  detected : List (ℕ × ℕ)
  current_sig_start : Option ℕ
  last_sig_end : Option ℕ
deriving DecidableEq, Repr

/-- `DetectionState.reset` on the instrumented state: the ghost frame
counter survives the reset. -/
def tReset (fr : ℕ) : TDetState :=
  { frame := fr, time_index := 0, detected := [], current_sig_start := none,
    last_sig_end := none }

/-- `appendSig` on the instrumented state: the appended symbol is tagged
with the current absolute frame. -/
def tAppendSig (st : TDetState) (signal_id : ℕ) : TDetState :=
  { st with
    detected := st.detected ++ [(st.frame, signal_id)],
    current_sig_start :=
      if st.current_sig_start = none then some st.time_index else st.current_sig_start,
    last_sig_end := some st.time_index }

/-- `DetectionState.check_signal` on the instrumented state (tags are
ignored by every comparison). -/
def tcheck_signal (st : TDetState) (signal_id : ℕ) : TDetState × Bool :=
  if st.time_index < 7 then (tReset st.frame, false)
  else if st.detected = [] then (tAppendSig st signal_id, true)
  else if cssTruthy st.current_sig_start = true ∧
      (st.detected.getLast?).map Prod.snd = some signal_id then
    if 4 < 1 + st.time_index - st.current_sig_start.getD 0 then
      (tReset st.frame, false)
    else
      ({ st with last_sig_end := some st.time_index }, true)
  else if st.time_index - st.last_sig_end.getD 0 < 3 ∨
      9 < st.time_index - st.last_sig_end.getD 0 then
    (tReset st.frame, false)
  else if SEQUENCE_LENGTH - 1 < st.detected.length then
    (tReset st.frame, false)
  else (tAppendSig st signal_id, true)

/-- `DetectionState.check_silence` on the instrumented state; a completed
sequence is emitted together with its tags. -/
def tcheck_silence (st : TDetState) : TDetState × Option (List (ℕ × ℕ)) :=
  if st.detected = [] then ({ st with current_sig_start := none }, none)
  else if st.detected.length = SEQUENCE_LENGTH ∧
      8 ≤ st.time_index - st.last_sig_end.getD 0 then
    (tReset st.frame, some st.detected)
  else if st.detected.length < SEQUENCE_LENGTH ∧
      8 < st.time_index - st.last_sig_end.getD 0 then
    (tReset st.frame, none)
  else ({ st with current_sig_start := none }, none)

/-- One iteration of the main loop of `start_detecting` as it affects the
detection state: `detections.time_increment()` (and one ghost frame), then
depending on the frame observation either the silence path
(`check_silence`), the accepted-signal path (`check_signal`), or the
harmonic-rejection reset. -/
def stepFrame (st : TDetState) (obs : FrameObs) : TDetState × Option (List (ℕ × ℕ)) :=
  match obs with
  | FrameObs.quiet =>
    tcheck_silence { st with frame := st.frame + 1, time_index := st.time_index + 1 }
  | FrameObs.signal s =>
    ((tcheck_signal { st with frame := st.frame + 1, time_index := st.time_index + 1 } s).1,
     none)
  | FrameObs.harmonicNoise => (tReset (st.frame + 1), none)

/-- The detection state after processing a list of frame observations,
starting from the boot state. -/
def runState (obs : List FrameObs) : TDetState :=
  obs.foldl (fun st o => (stepFrame st o).1) (tReset 0)

/-- The sequence (if any) completed and emitted while processing observation
number `m`; observation `m` tags appended symbols with frame `m + 1`. -/
def emission (obs : List FrameObs) (m : ℕ) : Option (List (ℕ × ℕ)) :=
  (stepFrame (runState (obs.take m)) (obs.getD m FrameObs.quiet)).2

/-! ## Helper lemmas -/

/-- Rounding a rational that lies strictly between `z - 1/2` and `z + 1/2`
gives `z`, whatever the tie-breaking rule. -/
theorem pyRoundQ_eq (q : ℚ) (z : ℤ) (h1 : (z : ℚ) - 1 / 2 < q)
    (h2 : q < (z : ℚ) + 1 / 2) : pyRoundQ q = z := by
  have hfl : (⌊q⌋ : ℚ) ≤ q := Int.floor_le q
  have hfu : q < (⌊q⌋ : ℚ) + 1 := Int.lt_floor_add_one q
  have hz1 : z - 1 ≤ ⌊q⌋ := Int.le_floor.mpr (by push_cast; linarith)
  have hz2 : ⌊q⌋ ≤ z := by
    have h := Int.floor_lt.mpr (show q < ((z + 1 : ℤ) : ℚ) by push_cast; linarith)
    omega
  have hcase : ⌊q⌋ = z ∨ ⌊q⌋ = z - 1 := by omega
  unfold pyRoundQ
  rcases hcase with hc | hc
  · rw [hc, if_pos]
    rw [hc] at hfl
    linarith
  · have hb : (1 : ℚ) / 2 < q - (⌊q⌋ : ℚ) := by
      rw [hc]; push_cast; linarith
    rw [if_neg (by linarith), if_pos hb, hc]
    omega

/-- `pyRoundQ` never rounds up by more than one half. -/
theorem pyRoundQ_le (q : ℚ) : (pyRoundQ q : ℚ) ≤ q + 1 / 2 := by
  have hfl : (⌊q⌋ : ℚ) ≤ q := Int.floor_le q
  unfold pyRoundQ
  split_ifs <;> push_cast <;> linarith

/-- `pyRoundQ` never rounds down by more than one half. -/
theorem le_pyRoundQ (q : ℚ) : q - 1 / 2 ≤ (pyRoundQ q : ℚ) := by
  have hfu : q < (⌊q⌋ : ℚ) + 1 := Int.lt_floor_add_one q
  unfold pyRoundQ
  split_ifs <;> push_cast <;> linarith

/-- The pure-`ℕ` round trip of the codec: values up to 63 survive encoding
and decoding, and the encoding is three base-4 digits. -/
theorem codec_roundtrip_nat :
    ∀ v : Fin 64, seq_to_value (value_to_sequence v.val) = v.val ∧
      (value_to_sequence v.val).length = 3 ∧ ∀ d ∈ value_to_sequence v.val, d < 4 := by
  decide

/-! ## Claims -/

/-- C1: for every integer byte `b ∈ [0, 255]`, `speed_to_sequence b` is a
list of exactly 3 digits, each in `{0,1,2,3}`, whose value under
`seq_to_value` is `round(b / 255 * 63)`; and for every `v ∈ [0, 63]`,
decoding the encoding of `v` yields `v`. -/
theorem c1_codec_roundtrip :
    (∀ b : ℕ, b ≤ 255 →
      (speed_to_sequence (b : ℚ)).length = 3 ∧
      (∀ d ∈ speed_to_sequence (b : ℚ), d < 4) ∧
      seq_to_value (speed_to_sequence (b : ℚ)) = (pyRoundQ ((b : ℚ) / 255 * 63)).toNat) ∧
    (∀ v : ℕ, v ≤ 63 → seq_to_value (value_to_sequence v) = v) := by
  constructor
  · intro b hb
    have hsame : speed_to_sequence (b : ℚ) =
        value_to_sequence (pyRoundQ ((b : ℚ) / 255 * 63)).toNat := by
      unfold speed_to_sequence
      norm_num [SEQUENCE_LENGTH]
    have hb255 : (b : ℚ) ≤ 255 := by exact_mod_cast hb
    have hx63 : (b : ℚ) / 255 * 63 ≤ 63 := by
      rw [div_mul_eq_mul_div, div_le_iff₀ (by norm_num : (0 : ℚ) < 255)]
      linarith
    have ht : (pyRoundQ ((b : ℚ) / 255 * 63)).toNat ≤ 63 := by
      have h2 := pyRoundQ_le ((b : ℚ) / 255 * 63)
      have h3 : (pyRoundQ ((b : ℚ) / 255 * 63) : ℚ) < 64 := by linarith
      have h4 : pyRoundQ ((b : ℚ) / 255 * 63) < 64 := by exact_mod_cast h3
      omega
    obtain ⟨e1, e2, e3⟩ :=
      codec_roundtrip_nat ⟨(pyRoundQ ((b : ℚ) / 255 * 63)).toNat, by omega⟩
    rw [hsame]
    exact ⟨e2, e3, e1⟩
  · intro v hv
    exact (codec_roundtrip_nat ⟨v, by omega⟩).1

/-- C1 witness: the theorem applied at the concrete byte 128 and the
concrete value 9. -/
theorem c1_codec_roundtrip_witness :
    (speed_to_sequence ((128 : ℕ) : ℚ)).length = 3 ∧
    seq_to_value (value_to_sequence 9) = 9 :=
  ⟨(c1_codec_roundtrip.1 128 (by norm_num)).1, c1_codec_roundtrip.2 9 (by norm_num)⟩

/-- C2 counterexample: the claim asserts that every detector copy rejects a
lone signal exactly when the sub-harmonic sum exceeds `HARMONIC_FACTOR = 1.3`
times the signal sum, but the `src/beepdetect.py` copy rejects at the
concrete frame with signal sum 1 and sub-harmonic sum 1, where the claimed
threshold is not exceeded. -/
theorem c2_subharmonic_counterexample :
    (legacy_one_signal DetectionState.resetState 0 1 1).2 = none ∧
    ¬(HARMONIC_FACTOR * 1 < (1 : ℚ)) := by
  constructor
  · norm_num [legacy_one_signal]
  · norm_num [HARMONIC_FACTOR]

/-- C2 amended: in `src/pi_files/beepdetect.py` a lone-signal frame is
rejected (state reset, symbol withheld from the state machine) exactly when
the sub-harmonic two-frame sum exceeds `HARMONIC_FACTOR = 1.3` times the
signal two-frame sum, and otherwise the symbol is passed to `check_signal`;
the older `src/beepdetect.py` instead rejects exactly when the sub-harmonic
sum exceeds `0.7` times the signal sum. -/
theorem c2_subharmonic_amended (st : DetectionState) (signal_id : ℕ)
    (sig_total sub_total : ℚ) (hsig : 0 < sig_total) :
    ((process_one_signal st signal_id sig_total sub_total).2 = none ↔
      HARMONIC_FACTOR * sig_total < sub_total) ∧
    (HARMONIC_FACTOR * sig_total < sub_total →
      process_one_signal st signal_id sig_total sub_total =
        (DetectionState.resetState, none)) ∧
    (¬(HARMONIC_FACTOR * sig_total < sub_total) →
      process_one_signal st signal_id sig_total sub_total =
        ((check_signal st signal_id).1, some (check_signal st signal_id).2)) ∧
    ((legacy_one_signal st signal_id sig_total sub_total).2 = none ↔
      7 / 10 * sig_total < sub_total) := by
  have hdiv : HARMONIC_FACTOR < sub_total / sig_total ↔
      HARMONIC_FACTOR * sig_total < sub_total := lt_div_iff₀ hsig
  refine ⟨?_, ?_, ?_, ?_⟩
  · by_cases hc : HARMONIC_FACTOR < sub_total / sig_total
    · simp [process_one_signal, hc, hdiv.mp hc]
    · have hn : ¬HARMONIC_FACTOR * sig_total < sub_total := fun h => hc (hdiv.mpr h)
      simp [process_one_signal, hc, hn]
  · intro h
    have hc : sub_total / sig_total > HARMONIC_FACTOR := hdiv.mpr h
    simp [process_one_signal, hc]
  · intro h
    have hc : ¬sub_total / sig_total > HARMONIC_FACTOR := fun hh => h (hdiv.mp hh)
    simp [process_one_signal, hc]
  · by_cases hc : 7 / 10 * sig_total < sub_total
    · simp [legacy_one_signal, hc]
    · simp [legacy_one_signal, hc]

/-- C2 witness: the amended theorem applied at a frame with signal sum 1 and
sub-harmonic sum 2, which the current detector rejects. -/
theorem c2_subharmonic_witness :
    process_one_signal DetectionState.resetState 0 1 2 =
      (DetectionState.resetState, none) :=
  (c2_subharmonic_amended DetectionState.resetState 0 1 2 (by norm_num)).2.1
    (by norm_num [HARMONIC_FACTOR])

/-- C3 counterexample: over a concrete three-move buffer with lead time 1 the
backward walk brackets the lead time at position 1 with
`t_elapsed = 1.2 ≥ 1 > t_next = 0.8`, and `t_next ≥ 0.75` holds, so the claim
says the sequence is inserted after position 1 at lead 0.8; the code instead
(because `t_elapsed ≤ 1.25`) inserts before position 1 at lead 1.2. -/
theorem c3_insertion_counterexample :
    backtrack [⟨"G1 X10 Y0 F1200", 1⟩, ⟨"G1 X12 Y0", 2 / 5⟩, ⟨"G1 X16 Y0", 4 / 5⟩] 1 =
      (1, 6 / 5, 4 / 5, false) ∧
    (1 : ℚ) ≤ 6 / 5 ∧ (4 / 5 : ℚ) < 1 ∧ (3 / 4 : ℚ) * 1 ≤ 4 / 5 ∧
    optimize_lead_time 1 1 (6 / 5) (4 / 5) false false = (1, 6 / 5, false) ∧
    claimed_optimize 1 1 (6 / 5) (4 / 5) false false = (2, 4 / 5, false) ∧
    optimize_lead_time 1 1 (6 / 5) (4 / 5) false false ≠
      claimed_optimize 1 1 (6 / 5) (4 / 5) false false := by
  refine ⟨?_, by norm_num, by norm_num, by norm_num, ?_, ?_, ?_⟩
  · rw [backtrack]
    norm_num [backtrackAux]
    rw [if_neg (by decide), if_neg (by decide)]
  · norm_num [optimize_lead_time]
  · norm_num [claimed_optimize]
  · norm_num [optimize_lead_time, claimed_optimize, Prod.ext_iff]

/-- C3 amended: when the backward walk of `inject_beep_sequence` brackets the
lead time `T` at position `p > 0` with `t_elapsed ≥ T > t_next ≥ 0` and no
prior sequence marker crossed, the insertion point is chosen as follows:
if `t_elapsed ≤ 1.25·T`, insert before `p` at lead `t_elapsed`; otherwise if
`t_next ≥ 0.75·T`, insert after `p` at lead `t_next`; otherwise if splitting
is allowed and succeeds, split the move at `p` into parts of durations
`(t_elapsed − T)` and `(T − t_next)` and insert between them; otherwise if
`t_elapsed ≤ 2·T`, insert before `p` at lead `t_elapsed`; otherwise insert
after `p` at lead `t_next` (the "too late" fallback). -/
theorem c3_insertion_amended (buffer : List BufLine) (lead_time : ℚ) (position : ℕ)
    (t_elapsed t_next : ℚ) (allow_split split_ok : Bool)
    (hwalk : backtrack buffer lead_time = (position, t_elapsed, t_next, false))
    (hpos : 0 < position) (hT : 0 < lead_time) (hte : lead_time ≤ t_elapsed)
    (htn : t_next < lead_time) (htn0 : 0 ≤ t_next) :
    (t_elapsed ≤ 5 / 4 * lead_time →
      optimize_lead_time lead_time position t_elapsed t_next allow_split split_ok =
        (position, t_elapsed, false)) ∧
    (5 / 4 * lead_time < t_elapsed → 3 / 4 * lead_time ≤ t_next →
      optimize_lead_time lead_time position t_elapsed t_next allow_split split_ok =
        (position + 1, t_next, false)) ∧
    (5 / 4 * lead_time < t_elapsed → t_next < 3 / 4 * lead_time →
      (allow_split && split_ok) = true →
      optimize_lead_time lead_time position t_elapsed t_next allow_split split_ok =
        (position + 1, t_next + lead_time, true) ∧
      split_move_times (t_elapsed - t_next) (lead_time - t_next) =
        (t_elapsed - lead_time, lead_time - t_next)) ∧
    (5 / 4 * lead_time < t_elapsed → t_next < 3 / 4 * lead_time →
      (allow_split && split_ok) = false → t_elapsed ≤ 2 * lead_time →
      optimize_lead_time lead_time position t_elapsed t_next allow_split split_ok =
        (position, t_elapsed, false)) ∧
    (5 / 4 * lead_time < t_elapsed → t_next < 3 / 4 * lead_time →
      (allow_split && split_ok) = false → 2 * lead_time < t_elapsed →
      optimize_lead_time lead_time position t_elapsed t_next allow_split split_ok =
        (position + 1, t_next, false)) := by
  refine ⟨?_, ?_, ?_, ?_, ?_⟩
  · intro h1
    rw [optimize_lead_time, if_neg (by linarith)]
  · intro h1 h2
    rw [optimize_lead_time, if_pos h1, if_pos h2]
  · intro h1 h2 h3
    constructor
    · rw [optimize_lead_time, if_pos h1, if_neg (by linarith), h3]
      simp
    · have hd : t_elapsed - t_next ≠ 0 := by linarith
      unfold split_move_times
      rw [Prod.mk.injEq]
      constructor
      · field_simp
      · rfl
  · intro h1 h2 h3 h4
    rw [optimize_lead_time, if_pos h1, if_neg (by linarith), h3]
    simp [if_pos h4]
  · intro h1 h2 h3 h4
    rw [optimize_lead_time, if_pos h1, if_neg (by linarith), h3]
    simp [if_neg (by linarith : ¬t_elapsed ≤ 2 * lead_time)]

/-- C3 witness: the amended theorem applied to the concrete buffer of the
counterexample, landing in the `t_elapsed ≤ 1.25·T` branch. -/
theorem c3_insertion_witness :
    optimize_lead_time 1 1 (6 / 5) (4 / 5) false false = (1, 6 / 5, false) :=
  (c3_insertion_amended
      [⟨"G1 X10 Y0 F1200", 1⟩, ⟨"G1 X12 Y0", 2 / 5⟩, ⟨"G1 X16 Y0", 4 / 5⟩]
      1 1 (6 / 5) (4 / 5) false false
      (by rw [backtrack]; norm_num [backtrackAux]; rw [if_neg (by decide), if_neg (by decide)])
      (by norm_num) (by norm_num) (by norm_num) (by norm_num) (by norm_num)).1
    (by norm_num)

/-- C4: on a silence frame, `check_silence` returns the duty percentage
`round(seq_to_value(detected) * 100 / 63, 2)` and resets exactly when
`len(detected) = 3` and `time_index - last_sig_end ≥ 8`; it returns `False`
and resets exactly when `0 < len(detected) < 3` and
`time_index - last_sig_end > 8`; in every other case it returns `None` and
leaves `detected`, `time_index` and `last_sig_end` unchanged (clearing only
`current_sig_start`).  The hypothesis excludes the states on which the Python
code would raise a `TypeError`. -/
theorem c4_check_silence (st : DetectionState)
    (hwf : st.detected ≠ [] → st.last_sig_end ≠ none) :
    (st.detected.length = SEQUENCE_LENGTH ∧
        8 ≤ st.time_index - st.last_sig_end.getD 0 →
      check_silence st =
        (DetectionState.resetState,
         SilenceResult.duty (pyRound2 ((seq_to_value st.detected : ℚ) * seq_scale_factor)))) ∧
    (0 < st.detected.length ∧ st.detected.length < SEQUENCE_LENGTH ∧
        8 < st.time_index - st.last_sig_end.getD 0 →
      check_silence st = (DetectionState.resetState, SilenceResult.invalid)) ∧
    (¬(st.detected.length = SEQUENCE_LENGTH ∧
        8 ≤ st.time_index - st.last_sig_end.getD 0) →
     ¬(0 < st.detected.length ∧ st.detected.length < SEQUENCE_LENGTH ∧
        8 < st.time_index - st.last_sig_end.getD 0) →
      check_silence st = ({ st with current_sig_start := none }, SilenceResult.nothing)) ∧
    ((∃ d, (check_silence st).2 = SilenceResult.duty d) ↔
      st.detected.length = SEQUENCE_LENGTH ∧
        8 ≤ st.time_index - st.last_sig_end.getD 0) ∧
    ((check_silence st).2 = SilenceResult.invalid ↔
      0 < st.detected.length ∧ st.detected.length < SEQUENCE_LENGTH ∧
        8 < st.time_index - st.last_sig_end.getD 0) := by
  have hA : st.detected.length = SEQUENCE_LENGTH ∧
      8 ≤ st.time_index - st.last_sig_end.getD 0 →
      check_silence st =
        (DetectionState.resetState,
         SilenceResult.duty (pyRound2 ((seq_to_value st.detected : ℚ) * seq_scale_factor))) := by
    rintro ⟨ha1, ha2⟩
    have hne : ¬st.detected = [] := by
      intro h
      rw [h] at ha1
      simp [SEQUENCE_LENGTH] at ha1
    simp only [check_silence]
    rw [if_neg hne, if_pos ⟨ha1, ha2⟩]
  have hB : 0 < st.detected.length ∧ st.detected.length < SEQUENCE_LENGTH ∧
      8 < st.time_index - st.last_sig_end.getD 0 →
      check_silence st = (DetectionState.resetState, SilenceResult.invalid) := by
    rintro ⟨hb0, hb1, hb2⟩
    have hne : ¬st.detected = [] := by
      intro h
      rw [h] at hb0
      simp at hb0
    simp only [check_silence]
    rw [if_neg hne, if_neg (by omega : ¬(st.detected.length = SEQUENCE_LENGTH ∧
      8 ≤ st.time_index - st.last_sig_end.getD 0)), if_pos ⟨hb1, hb2⟩]
  have hC : ¬(st.detected.length = SEQUENCE_LENGTH ∧
      8 ≤ st.time_index - st.last_sig_end.getD 0) →
      ¬(0 < st.detected.length ∧ st.detected.length < SEQUENCE_LENGTH ∧
        8 < st.time_index - st.last_sig_end.getD 0) →
      check_silence st =
        ({ st with current_sig_start := none }, SilenceResult.nothing) := by
    intro hn1 hn2
    by_cases he : st.detected = []
    · simp only [check_silence]
      rw [if_pos he]
    · have hlen : 0 < st.detected.length := List.length_pos.mpr he
      simp only [check_silence]
      rw [if_neg he, if_neg hn1,
        if_neg (fun hx => hn2 ⟨hlen, hx.1, hx.2⟩)]
  refine ⟨hA, hB, hC, ?_, ?_⟩
  · constructor
    · rintro ⟨d, hd⟩
      by_contra hn
      by_cases h2 : 0 < st.detected.length ∧ st.detected.length < SEQUENCE_LENGTH ∧
          8 < st.time_index - st.last_sig_end.getD 0
      · rw [hB h2] at hd
        simp at hd
      · rw [hC hn h2] at hd
        simp at hd
    · intro h
      rw [hA h]
      exact ⟨_, rfl⟩
  · constructor
    · intro hd
      by_contra hn
      by_cases h1 : st.detected.length = SEQUENCE_LENGTH ∧
          8 ≤ st.time_index - st.last_sig_end.getD 0
      · rw [hA h1] at hd
        simp at hd
      · rw [hC h1 hn] at hd
        simp at hd
    · intro h
      rw [hB h]

/-- C4 witness: the theorem applied at a concrete completed state; the
sequence `[1,2,3]` decodes to 27 and yields duty `42.86`. -/
theorem c4_check_silence_witness :
    check_silence ⟨20, [1, 2, 3], some 5, some 10⟩ =
      (DetectionState.resetState,
       SilenceResult.duty (pyRound2 ((seq_to_value [1, 2, 3] : ℚ) * seq_scale_factor))) :=
  (c4_check_silence ⟨20, [1, 2, 3], some 5, some 10⟩ (by simp)).1
    (by constructor <;> simp [SEQUENCE_LENGTH])

/-- C9 (implicit): `check_signal` returns `False` exactly when it has reset
the whole detection state to its initial value, and whenever it returns
`True` the new `detected` is non-empty with the observed symbol as last
element, `last_sig_end` equals the (unchanged) current `time_index`.  The
hypothesis excludes the states on which the Python code would raise. -/
theorem c9_reset_atomicity (st : DetectionState) (s : ℕ)
    (hwf : st.detected ≠ [] → st.last_sig_end ≠ none) :
    ((check_signal st s).2 = false ↔ (check_signal st s).1 = DetectionState.resetState) ∧
    ((check_signal st s).2 = true →
      (check_signal st s).1.detected ≠ [] ∧
      (check_signal st s).1.detected.getLast? = some s ∧
      (check_signal st s).1.last_sig_end = some st.time_index ∧
      (check_signal st s).1.time_index = st.time_index) := by
  have hne : ¬st.time_index < 7 → ∀ st2 : DetectionState,
      st2.time_index = st.time_index → st2 ≠ DetectionState.resetState := by
    intro h7 st2 hti heq
    rw [heq] at hti
    simp only [DetectionState.resetState] at hti
    omega
  unfold check_signal
  split_ifs with h1 h2 h3 h4 h5 h6
  · simp
  · refine ⟨⟨fun h => by simp at h, fun heq => absurd heq (hne h1 _ rfl)⟩, fun _ => ?_⟩
    refine ⟨by simp [appendSig], ?_, rfl, rfl⟩
    simp [appendSig, List.getLast?_append_cons]
  · simp
  · refine ⟨⟨fun h => by simp at h, fun heq => absurd heq (hne h1 _ rfl)⟩, fun _ => ?_⟩
    exact ⟨h2, h3.2, rfl, rfl⟩
  · simp
  · simp
  · refine ⟨⟨fun h => by simp at h, fun heq => absurd heq (hne h1 _ rfl)⟩, fun _ => ?_⟩
    refine ⟨by simp [appendSig], ?_, rfl, rfl⟩
    simp [appendSig, List.getLast?_append_cons]

/-- C9 witness: the theorem applied at the boot state and signal 1, which
resets (the signal arrives with `time_index = 0 < 7`). -/
theorem c9_reset_atomicity_witness :
    (check_signal DetectionState.resetState 1).1 = DetectionState.resetState :=
  (c9_reset_atomicity DetectionState.resetState 1 (by simp [DetectionState.resetState])).1.mp
    (by simp [check_signal, DetectionState.resetState])

/-- C5 counterexample: the claim asserts that whenever a different symbol is
accepted, both timestamps are set to `time_index`; at the concrete state
`⟨time_index 10, detected [1], current_sig_start some 8, last_sig_end some 7⟩`
with symbol 2 the code accepts and appends, but leaves `current_sig_start`
at 8 instead of setting it to 10 (it is only set when it was `None`). -/
theorem c5_timing_counterexample :
    check_signal ⟨10, [1], some 8, some 7⟩ 2 =
      (⟨10, [1, 2], some 8, some 10⟩, true) ∧
    (check_signal ⟨10, [1], some 8, some 7⟩ 2).1.current_sig_start ≠ some 10 := by
  constructor
  · decide
  · decide

/-- C5 amended: for every well-formed state with `time_index ≥ 7`, non-empty
`detected` of length at most 3, and `last_sig_end` set: a symbol equal to
`detected[-1]` whose sustained run `1 + time_index - current_sig_start`
exceeds 4 frames resets; a symbol different from `detected[-1]` resets
exactly when the gap `Δ = time_index - last_sig_end` satisfies `Δ < 3` or
`Δ > 9`, or `detected` already has length 3; otherwise the symbol is
appended, `last_sig_end` is set to `time_index`, and `current_sig_start` is
set to `time_index` only if it was `None` (in a reachable run a silence frame
has always cleared it by then). -/
theorem c5_timing_amended (st : DetectionState) (s e : ℕ)
    (h7 : 7 ≤ st.time_index) (hne : st.detected ≠ [])
    (hlen : st.detected.length ≤ SEQUENCE_LENGTH)
    (hlse : st.last_sig_end = some e) :
    (∀ c, st.current_sig_start = some c → c ≠ 0 → st.detected.getLast? = some s →
      4 < 1 + st.time_index - c →
      check_signal st s = (DetectionState.resetState, false)) ∧
    (st.detected.getLast? ≠ some s →
      (check_signal st s = (DetectionState.resetState, false) ↔
        st.time_index - e < 3 ∨ 9 < st.time_index - e ∨
          st.detected.length = SEQUENCE_LENGTH)) ∧
    (st.detected.getLast? ≠ some s →
      ¬(st.time_index - e < 3 ∨ 9 < st.time_index - e ∨
          st.detected.length = SEQUENCE_LENGTH) →
      check_signal st s = (appendSig st s, true) ∧
      (appendSig st s).detected = st.detected ++ [s] ∧
      (appendSig st s).last_sig_end = some st.time_index ∧
      (appendSig st s).current_sig_start =
        (if st.current_sig_start = none then some st.time_index
         else st.current_sig_start)) := by
  have h7n : ¬st.time_index < 7 := by omega
  refine ⟨?_, ?_, ?_⟩
  · intro c hc hc0 hlast hrun
    have htr : cssTruthy st.current_sig_start = true ∧
        st.detected.getLast? = some s := by
      rw [hc]
      simp [cssTruthy, hc0, hlast]
    simp only [check_signal]
    rw [if_neg h7n, if_neg hne, if_pos htr, if_pos (by rw [hc]; simpa using hrun)]
  · intro hlast
    have htr : ¬(cssTruthy st.current_sig_start = true ∧
        st.detected.getLast? = some s) := fun hx => hlast hx.2
    constructor
    · intro heq
      by_contra hcond
      rw [not_or, not_or] at hcond
      obtain ⟨hg1, hg2, hg3⟩ := hcond
      simp only [check_signal] at heq
      rw [if_neg h7n, if_neg hne, if_neg htr, hlse] at heq
      simp only [Option.getD_some] at heq
      rw [if_neg (not_or.mpr ⟨hg1, hg2⟩),
        if_neg (by simp only [SEQUENCE_LENGTH] at hlen hg3 ⊢; omega)] at heq
      simp at heq
    · intro hcond
      simp only [check_signal]
      rw [if_neg h7n, if_neg hne, if_neg htr, hlse]
      simp only [Option.getD_some]
      by_cases hg : st.time_index - e < 3 ∨ 9 < st.time_index - e
      · rw [if_pos hg]
      · rw [if_neg hg,
          if_pos (by simp only [SEQUENCE_LENGTH] at hlen hcond ⊢; omega)]
  · intro hlast hcond
    have htr : ¬(cssTruthy st.current_sig_start = true ∧
        st.detected.getLast? = some s) := fun hx => hlast hx.2
    refine ⟨?_, rfl, rfl, rfl⟩
    simp only [check_signal]
    rw [if_neg h7n, if_neg hne, if_neg htr]
    rw [hlse]
    simp only [Option.getD_some]
    rw [if_neg (by omega : ¬(st.time_index - e < 3 ∨ 9 < st.time_index - e)),
      if_neg (by simp only [SEQUENCE_LENGTH] at hlen hcond ⊢; omega)]

/-- C5 witness: the amended theorem applied at the state
`⟨10, [1], none, some 7⟩` receiving symbol 2, which is appended. -/
theorem c5_timing_witness :
    check_signal ⟨10, [1], none, some 7⟩ 2 =
      (appendSig ⟨10, [1], none, some 7⟩ 2, true) :=
  ((c5_timing_amended ⟨10, [1], none, some 7⟩ 2 7 (by decide) (by decide)
      (by decide) rfl).2.2 (by decide) (by decide)).1

/-- C6 counterexample: for `timeout = 0` the countdown is
`round(1 / chunk_duration) = 43`, not `⌈1 / chunk_duration⌉ = 44` as the
claim states, and 43 frames last less than `timeout + 1 = 1` second. -/
theorem c6_countdown_counterexample :
    request_countdown 0 = 43 ∧
    ⌈(1 : ℚ) / chunk_duration⌉ = 44 ∧
    (request_countdown 0 : ℚ) * chunk_duration < 1 := by
  have hval : (((0 : ℕ) : ℚ) + 1) / chunk_duration = 11025 / 256 := by
    norm_num [chunk_duration]
  have h43 : request_countdown 0 = 43 := by
    rw [request_countdown, hval]
    exact pyRoundQ_eq _ 43 (by norm_num) (by norm_num)
  refine ⟨h43, ?_, ?_⟩
  · rw [Int.ceil_eq_iff]
    constructor <;> norm_num [chunk_duration]
  · rw [h43]
    norm_num [chunk_duration]

/-- C6 amended: the countdown is Python's `round((timeout + 1) /
chunk_duration)` (banker's rounding), not the ceiling; consequently the
result of a dispatched request is inspected no sooner than
`timeout + 1 - chunk_duration / 2` seconds after issue. -/
theorem c6_countdown_amended (timeout : ℕ) :
    request_countdown timeout = pyRoundQ (((timeout : ℚ) + 1) / chunk_duration) ∧
    ((timeout : ℚ) + 1) - chunk_duration / 2 ≤
      (request_countdown timeout : ℚ) * chunk_duration := by
  refine ⟨rfl, ?_⟩
  have hchunk : (0 : ℚ) < chunk_duration := by norm_num [chunk_duration]
  have h := le_pyRoundQ (((timeout : ℚ) + 1) / chunk_duration)
  have h2 : (((timeout : ℚ) + 1) / chunk_duration - 1 / 2) * chunk_duration ≤
      (request_countdown timeout : ℚ) * chunk_duration :=
    mul_le_mul_of_nonneg_right h (le_of_lt hchunk)
  have h4 : ((timeout : ℚ) + 1) / chunk_duration * chunk_duration = (timeout : ℚ) + 1 :=
    div_mul_cancel₀ _ (ne_of_gt hchunk)
  have h5 : (((timeout : ℚ) + 1) / chunk_duration - 1 / 2) * chunk_duration =
      ((timeout : ℚ) + 1) / chunk_duration * chunk_duration - chunk_duration / 2 := by
    ring
  linarith

/-- C7: the ramp scale is `min(1, scale0 + z·(1 − scale0)/zmax)` for every
configuration, and in the concrete scenario (`zmax = 4`, `scale0 = 0.05`,
`M106 S128` at `Z = 1`) the scale is 0.2875, the scaled speed 36.8, the
quantised sequence `[0, 2, 1]` of value 9, and the decoded duty 14.29. -/
theorem c7_ramp_up_scenario (z scale0 zmax : ℚ) :
    ramp_up_scale z scale0 zmax = min 1 (scale0 + z * (1 - scale0) / zmax) ∧
    ramp_up_scale 1 (1 / 20) 4 = 23 / 80 ∧
    (128 : ℚ) * ramp_up_scale 1 (1 / 20) 4 = 184 / 5 ∧
    speed_to_sequence ((128 : ℚ) * ramp_up_scale 1 (1 / 20) 4) = [0, 2, 1] ∧
    seq_to_value [0, 2, 1] = 9 ∧
    pyRound2 ((9 : ℚ) * seq_scale_factor) = 1429 / 100 := by
  have hr : ramp_up_scale 1 (1 / 20) 4 = 23 / 80 := by
    unfold ramp_up_scale
    rw [show (1 : ℚ) * (1 - 1 / 20) / 4 + 1 / 20 = 23 / 80 by norm_num,
      min_eq_right (by norm_num)]
  have hspeed : (128 : ℚ) * ramp_up_scale 1 (1 / 20) 4 = 184 / 5 := by
    rw [hr]
    norm_num
  refine ⟨?_, hr, hspeed, ?_, by decide, ?_⟩
  · unfold ramp_up_scale
    rw [add_comm (z * (1 - scale0) / zmax) scale0]
  · rw [hspeed]
    have hq : pyRoundQ ((184 / 5 : ℚ) / 255 * (4 ^ SEQUENCE_LENGTH - 1)) = 9 :=
      pyRoundQ_eq _ 9 (by norm_num [SEQUENCE_LENGTH]) (by norm_num [SEQUENCE_LENGTH])
    unfold speed_to_sequence
    rw [hq]
    decide
  · have hq : pyRoundQ ((9 : ℚ) * seq_scale_factor * 100) = 1429 :=
      pyRoundQ_eq _ 1429 (by norm_num [seq_scale_factor, SEQUENCE_LENGTH])
        (by norm_num [seq_scale_factor, SEQUENCE_LENGTH])
    unfold pyRound2
    rw [hq]
    norm_num

/-- A line matched by the fan regex starts with `M10`, so it can match
neither the `M126`/`M127` regex nor the end marker (which starts with `;`). -/
theorem matchFan_shape (cs : List Char) (r : FanCmd × Option ℚ)
    (h : matchFan cs = some r) :
    matchM126_7 cs = false ∧ startsWithChars END_MARKER.toList cs = false := by
  unfold matchFan at h
  split at h
  · exact ⟨rfl, rfl⟩
  · exact ⟨rfl, rfl⟩
  · simp at h

/-- C10 (implicit): an `M106` line without an S parameter records a fan duty
cycle of 0.0, exactly as a bare `M107` does.  (The `matchG1` hypothesis
rules out pathological lines such as `M106 G1` which the reader of
`_read_next_line` classifies as moves before the fan regex is tried.) -/
theorem c10_bare_m106 (line : List Char) (prev_duty : ℚ)
    (hfan : matchFan line = some (FanCmd.m106, none))
    (hg1 : matchG1 line = false) :
    line_duty prev_duty line = 0 ∧
    line_duty prev_duty line =
      line_duty prev_duty ('M' :: '1' :: '0' :: '7' :: []) := by
  obtain ⟨h126, hmark⟩ := matchFan_shape line _ hfan
  have h0 : line_duty prev_duty line = 0 := by
    unfold line_duty
    rw [if_neg (by simp [hg1]), if_neg (by simp [h126]),
      if_neg (by simp only [hmark]; simp), hfan]
  have h107 : line_duty prev_duty ('M' :: '1' :: '0' :: '7' :: []) = 0 := by
    unfold line_duty
    rw [if_neg (by decide), if_neg (by decide), if_neg (by decide),
      show matchFan ('M' :: '1' :: '0' :: '7' :: []) = some (FanCmd.m107, none) from by decide]
  exact ⟨h0, h0.trans h107.symm⟩

/-- C10 witness: the theorem applied to the bare line `M106`. -/
theorem c10_bare_m106_witness :
    line_duty (3 / 10) ('M' :: '1' :: '0' :: '6' :: []) = 0 :=
  (c10_bare_m106 ('M' :: '1' :: '0' :: '6' :: []) (3 / 10) (by decide) (by decide)).1

/-- Every frame step advances the ghost frame counter by exactly one. -/
theorem stepFrame_frame (st : TDetState) (o : FrameObs) :
    ((stepFrame st o).1).frame = st.frame + 1 := by
  cases o
  · simp only [stepFrame]
    unfold tcheck_silence
    split_ifs <;> rfl
  · simp only [stepFrame]
    unfold tcheck_signal
    split_ifs <;> rfl
  · rfl

/-- Every entry of `detected` after a step was already present before the
step or carries the new frame number. -/
theorem stepFrame_detected_sub (st : TDetState) (o : FrameObs) (p : ℕ × ℕ)
    (hp : p ∈ ((stepFrame st o).1).detected) :
    p ∈ st.detected ∨ p.1 = st.frame + 1 := by
  cases o
  · simp only [stepFrame] at hp
    unfold tcheck_silence at hp
    split_ifs at hp
    · exact Or.inl hp
    · simp [tReset] at hp
    · simp [tReset] at hp
    · exact Or.inl hp
  · simp only [stepFrame] at hp
    unfold tcheck_signal at hp
    split_ifs at hp
    · simp [tReset] at hp
    · simp only [tAppendSig, List.mem_append, List.mem_singleton] at hp
      rcases hp with hp | hp
      · exact Or.inl hp
      · right
        rw [hp]
    · simp [tReset] at hp
    · exact Or.inl hp
    · simp [tReset] at hp
    · simp [tReset] at hp
    · simp only [tAppendSig, List.mem_append, List.mem_singleton] at hp
      rcases hp with hp | hp
      · exact Or.inl hp
      · right
        rw [hp]
  · simp [stepFrame, tReset] at hp

/-- A step only emits the `detected` list held before the step. -/
theorem stepFrame_emits (st : TDetState) (o : FrameObs) (E : List (ℕ × ℕ))
    (h : (stepFrame st o).2 = some E) : E = st.detected := by
  cases o
  · simp only [stepFrame] at h
    unfold tcheck_silence at h
    split_ifs at h
    simp only [Option.some.injEq] at h
    exact h.symm
  · simp [stepFrame] at h
  · simp [stepFrame] at h

/-- Folding the step function adds the number of processed frames to the
ghost frame counter. -/
theorem foldl_frame (l : List FrameObs) (st : TDetState) :
    (l.foldl (fun s o => (stepFrame s o).1) st).frame = st.frame + l.length := by
  induction l generalizing st with
  | nil => simp
  | cons o t ih =>
    rw [List.foldl_cons, ih, stepFrame_frame]
    simp only [List.length_cons]
    omega

/-- Frame tags in `detected` never exceed the current ghost frame. -/
theorem foldl_detected_le (l : List FrameObs) (st : TDetState)
    (h : ∀ p ∈ st.detected, p.1 ≤ st.frame) :
    ∀ p ∈ (l.foldl (fun s o => (stepFrame s o).1) st).detected,
      p.1 ≤ (l.foldl (fun s o => (stepFrame s o).1) st).frame := by
  induction l generalizing st with
  | nil => simpa using h
  | cons o t ih =>
    rw [List.foldl_cons]
    apply ih
    intro p hp
    rcases stepFrame_detected_sub st o p hp with h1 | h1
    · have h2 := h p h1
      rw [stepFrame_frame]
      omega
    · rw [stepFrame_frame, h1]

/-- Once the ghost frame counter has passed `k + 1` with all recorded tags
above `k + 1`, every later tag also stays above `k + 1`. -/
theorem foldl_detected_gt (k : ℕ) (l : List FrameObs) (st : TDetState)
    (hfr : k + 1 ≤ st.frame) (h : ∀ p ∈ st.detected, k + 1 < p.1) :
    ∀ p ∈ (l.foldl (fun s o => (stepFrame s o).1) st).detected, k + 1 < p.1 := by
  induction l generalizing st with
  | nil => simpa using h
  | cons o t ih =>
    rw [List.foldl_cons]
    apply ih
    · rw [stepFrame_frame]
      omega
    · intro p hp
      rcases stepFrame_detected_sub st o p hp with h1 | h1
      · exact h p h1
      · omega

/-- A signal frame arriving with `time_index < 7` (after the increment)
resets the whole detection state. -/
theorem stepFrame_signal_reset (st : TDetState) (x : ℕ)
    (h : st.time_index + 1 < 7) :
    (stepFrame st (FrameObs.signal x)).1 = tReset (st.frame + 1) := by
  have hcond : ({ st with frame := st.frame + 1, time_index := st.time_index + 1 } : TDetState).time_index < 7 :=
    h
  show (tcheck_signal
    { st with frame := st.frame + 1, time_index := st.time_index + 1 } x).1 =
    tReset (st.frame + 1)
  unfold tcheck_signal
  rw [if_pos hcond]

/-- C8: a symbol observed while `time_index < 7` causes an immediate reset,
and no completed sequence emitted at any frame of the run can contain that
symbol occurrence (tagged with its frame number `k + 1`). -/
theorem c8_echo_immunity (obs : List FrameObs) (k x : ℕ)
    (hk : obs[k]? = some (FrameObs.signal x))
    (h7 : (runState (obs.take k)).time_index + 1 < 7) :
    runState (obs.take (k + 1)) = tReset (k + 1) ∧
    ∀ m E, emission obs m = some E → (k + 1, x) ∉ E := by
  have hklen : k < obs.length := by
    by_contra hcon
    push_neg at hcon
    rw [List.getElem?_eq_none hcon] at hk
    simp at hk
  have hframe : (runState (obs.take k)).frame = k := by
    have h1 := foldl_frame (obs.take k) (tReset 0)
    simp only [runState]
    rw [h1]
    simp only [tReset, List.length_take]
    omega
  have hstep : runState (obs.take (k + 1)) = tReset (k + 1) := by
    have ht : obs.take (k + 1) = obs.take k ++ [FrameObs.signal x] := by
      rw [List.take_succ, hk]
      rfl
    have h2 : runState (obs.take (k + 1)) =
        (stepFrame (runState (obs.take k)) (FrameObs.signal x)).1 := by
      simp only [runState, ht, List.foldl_append, List.foldl_cons, List.foldl_nil]
    rw [h2, stepFrame_signal_reset _ _ h7, hframe]
  refine ⟨hstep, ?_⟩
  intro m E hE hmem
  have hEdet : E = (runState (obs.take m)).detected := stepFrame_emits _ _ _ hE
  by_cases hm : m ≤ k
  · have h1 : ∀ p ∈ (runState (obs.take m)).detected,
        p.1 ≤ (runState (obs.take m)).frame := by
      apply foldl_detected_le
      intro p hp
      simp [tReset] at hp
    rw [hEdet] at hmem
    have h3 := h1 _ hmem
    have h2 := foldl_frame (obs.take m) (tReset 0)
    simp only [runState] at h3
    rw [h2] at h3
    simp only [tReset, List.length_take] at h3
    omega
  · push_neg at hm
    have hdecomp : obs.take m = obs.take (k + 1) ++ (obs.take m).drop (k + 1) := by
      conv_lhs => rw [← List.take_append_drop (k + 1) (obs.take m)]
      rw [List.take_take, min_eq_left (by omega : k + 1 ≤ m)]
    have hrun : runState (obs.take m) =
        ((obs.take m).drop (k + 1)).foldl (fun s o => (stepFrame s o).1)
          (runState (obs.take (k + 1))) := by
      conv_lhs => rw [hdecomp]
      simp only [runState, List.foldl_append]
    rw [hEdet, hrun] at hmem
    have h4 := foldl_detected_gt k ((obs.take m).drop (k + 1))
      (runState (obs.take (k + 1)))
      (by rw [hstep]; simp [tReset]) (by rw [hstep]; simp [tReset]) _ hmem
    simp at h4

/-- C8 witness: the theorem applied to the one-frame run consisting of a
single early symbol, which resets the automaton. -/
theorem c8_echo_immunity_witness :
    runState ([FrameObs.signal 1].take (0 + 1)) = tReset (0 + 1) :=
  (c8_echo_immunity [FrameObs.signal 1] 0 1 (by decide) (by decide)).1

end MightyVariableFan
